import Mathlib

set_option maxHeartbeats 1000000

/-!
Verification of the discovery–extraction–deduplication–persistence pipeline of
`scraper.py` (greenhouse-job-links).  The Python functions are shallowly
embedded as executable Lean definitions; Python strings are Lean `String`s,
Python string primitives (`in`, `split`, `lower`, `strip`, truthy-`or`) are
modelled explicitly below, and the CSV ledger file is modelled as a list of
rows, each row either parseable (carrying its `link` field) or unparseable
(raising on read).
-/

namespace Scraper

/-- Characters removed by Python `str.strip()` (the ASCII whitespace set). -/
def isSpaceChar (c : Char) : Bool :=
  c = ' ' || c = '\t' || c = '\n' || c = '\r' || c = '\x0b' || c = '\x0c'

/-- Model of Python `sub in s` (substring containment), on char lists.
`needle` occurs in the hay iff it is a prefix of some suffix. -/
def isSubstr (needle : List Char) : List Char → Bool
  | [] => needle.isEmpty
  | c :: rest => needle.isPrefixOf (c :: rest) || isSubstr needle rest

/-- Model of Python `sub in s` on strings. -/
def pyContains (s sub : String) : Bool := isSubstr sub.data s.data

/-- Model of Python `s.split(sep)` for a one-character separator, on char
lists: splits at every occurrence, keeping empty segments. -/
def splitChars (sep : Char) : List Char → List (List Char)
  | [] => [[]]
  | c :: rest =>
    match splitChars sep rest with
    | [] => [[]]
    | g :: gs => if c = sep then [] :: g :: gs else (c :: g) :: gs

/-- Model of Python `s.split(sep)` on strings. -/
def pySplit (s : String) (sep : Char) : List String :=
  (splitChars sep s.data).map String.mk

/-- Model of Python `s.lower()` (ASCII letters; per-character mapping is the
same A–Z shift as `Char.toLower`). -/
def pyLower (s : String) : String := ⟨s.data.map Char.toLower⟩

/-- Left part of `str.strip()`: drop leading whitespace. -/
def lstripChars (l : List Char) : List Char := l.dropWhile isSpaceChar

/-- Full `str.strip()` on char lists: drop leading, then trailing whitespace. -/
def stripChars (l : List Char) : List Char :=
  ((lstripChars l).reverse.dropWhile isSpaceChar).reverse

/-- Model of Python `s.strip()`. -/
def pyStrip (s : String) : String := ⟨stripChars s.data⟩

/-- Model of the Python idiom `x or d` for an optional string `x`: `None`
and the empty string (both falsy) are replaced by the default. -/
def pyOrDefault (v : Option String) (d : String) : String :=
  match v with
  | none => d
  | some s => if s = "" then d else s

/-- The structural path tokens excluded by `extract_company_from_url`
(scraper.py line 157: `['jobs', 'www', '', 'job-boards']`). -/
def structural_tokens : List String := ["jobs", "www", "", "job-boards"]

/-- The slug-search loop of `extract_company_from_url` (scraper.py lines
153–158): walk the `/`-split segments; at the first segment containing
`greenhouse.io` that has a successor not equal to a structural token, return
that successor lower-cased and stripped; otherwise keep scanning.  The
truthiness test `if company` is subsumed by the membership test because the
empty string is itself in the token list. -/
def findCompany : List String → Option String
  | p :: next :: rest =>
    if pyContains p "greenhouse.io" ∧ next ∉ structural_tokens then
      some (pyStrip (pyLower next))
    else
      findCompany (next :: rest)
  | _ => none

/-- Function `extract_company_from_url` (scraper.py lines 149–161).  The Python body
cannot raise (the bare `except` is dead), so the model is a total function
into `Option`. -/
def extract_company_from_url (url : String) : Option String :=
  if pyContains url "job-boards.greenhouse.io" then
    findCompany (pySplit url '/')
  else
    none

/-! ## Data model: raw search results, job records, HTTP outcomes -/

/-- One entry of a SerpAPI `organic_results` list.  Each field models the
corresponding dict key; `none` means the key is absent (so that the Python
`result.get(key, default)` defaults apply). -/
structure RawResult where
  link : Option String
  title : Option String
  snippet : Option String
deriving DecidableEq

/-- The dict appended to `job_links` (scraper.py lines 71–79 and 115–123). -/
structure JobRecord where
  link : String
  company : String
  role_matched : String
  location_searched : String
  found_at : String
  title : String
  snippet : String
deriving DecidableEq

/-- The JSON payload returned by SerpAPI, as far as the scraper inspects it:
only the optional `organic_results` key matters.  `organic_results = none`
models a truthy response dict lacking that key (the caller's
`'organic_results' in results` test fails). -/
structure SerpPayload where
  organic_results : Option (List RawResult)
deriving DecidableEq

/-- Outcome of the `requests.get` call inside `search_with_serpapi`:
either the request raises (network failure, timeout), or a response arrives
with a status code and a body.  `body = none` models a body on which
`response.json()` raises (malformed JSON, or a falsy/empty payload, which the
caller treats identically to a missing one). -/
inductive HttpOutcome where
  | failure
  | response (status : Nat) (body : Option SerpPayload)
deriving DecidableEq

/-- Function `search_with_serpapi` (scraper.py lines 16–39): returns the parsed JSON
on status 200, `None` otherwise; every exception (network failure, or
`response.json()` raising on a malformed body) is caught and becomes `None`. -/
def search_with_serpapi : HttpOutcome → Option SerpPayload
  | .failure => none
  | .response status body => if status = 200 then body else none

/-- The raw-result sequence the discovery loop obtains from one query:
`results['organic_results']` when `results` is truthy and has that key
(scraper.py lines 63 and 102), otherwise the empty sequence. -/
def backendResults (o : HttpOutcome) : List RawResult :=
  match search_with_serpapi o with
  | none => []
  | some payload => payload.organic_results.getD []

/-! ## Result normalization (the two per-result loop bodies) -/

/-- The assignment `link = result.get('link', '')` (scraper.py lines 67 and 106). -/
def rawLink (result : RawResult) : String := result.link.getD ""

/-- Loop body of Method 1 (scraper.py lines 66–79): build a JobRecord from a
raw result for a (role, location) cross-product query, or reject it when the
link lacks the host marker or the posting-path marker. -/
def normalize_cross (result : RawResult) (role location found_at : String) :
    Option JobRecord :=
  if pyContains (rawLink result) "job-boards.greenhouse.io" &&
      pyContains (rawLink result) "/jobs/" then
    some { link := rawLink result
           company := pyOrDefault (extract_company_from_url (rawLink result)) "unknown"
           role_matched := role
           location_searched := location
           found_at := found_at
           title := result.title.getD "No title"
           snippet := result.snippet.getD "No description" }
  else
    none

/-- Function `determine_role_from_pattern` (scraper.py lines 135–140): the first
target role whose lower-cased text occurs in the lower-cased pattern,
else `"unknown"`. -/
def determine_role_from_pattern (pattern : String) (target_roles : List String) :
    String :=
  match target_roles.find? (fun role => pyContains (pyLower pattern) (pyLower role)) with
  | some role => role
  | none => "unknown"

/-- Loop body of Method 2 (scraper.py lines 105–123): same marker filter,
role inferred from the pattern text, location fixed to `"US/Remote"`.  The
Python truthiness guard `if role_matched:` is the `≠ ""` test. -/
def normalize_pattern (result : RawResult) (pattern : String)
    (target_roles : List String) (found_at : String) : Option JobRecord :=
  if pyContains (rawLink result) "job-boards.greenhouse.io" &&
      pyContains (rawLink result) "/jobs/" then
    if determine_role_from_pattern pattern target_roles ≠ "" then
      some { link := rawLink result
             company := pyOrDefault (extract_company_from_url (rawLink result)) "unknown"
             role_matched := determine_role_from_pattern pattern target_roles
             location_searched := "US/Remote"
             found_at := found_at
             title := result.title.getD "No title"
             snippet := result.snippet.getD "No description" }
    else
      none
  else
    none

/-! ## The discovery run -/

/-- The query string built for a (role, location) pair (scraper.py line 58). -/
def mk_query (role location : String) : String :=
  "site:job-boards.greenhouse.io \"" ++ role ++ "\" \"" ++ location ++ "\""

/-- The fixed pattern queries of Method 2 (scraper.py lines 90–95). -/
def search_patterns : List String :=
  [ "site:job-boards.greenhouse.io \"data scientist\" \"remote\" OR \"US\""
  , "site:job-boards.greenhouse.io \"machine learning engineer\" \"remote\" OR \"US\""
  , "site:job-boards.greenhouse.io \"data analyst\" \"remote\" OR \"US\""
  , "site:job-boards.greenhouse.io \"ai engineer\" \"remote\" OR \"US\"" ]

/-- Function `discover_greenhouse_job_links` (scraper.py lines 41–133).  The external
world is the `backend` oracle mapping each issued query string to its HTTP
outcome; `found_at` is the string `current_time.strftime('%Y-%m-%d %H:%M:%S')`
for the single `datetime.now()` captured at line 46 (strftime on the one
immutable datetime is deterministic, so the formatted string is the faithful
run-level abstraction).  The unused `hours_threshold` parameter and the
logging/sleep statements are dropped; the per-query `try/except` is dead in
the model because no modelled operation raises. -/
def discover_greenhouse_job_links (target_roles target_locations : List String)
    (backend : String → HttpOutcome) (found_at : String) : List JobRecord :=
  let method1 := target_roles.flatMap fun role =>
    target_locations.flatMap fun location =>
      (backendResults (backend (mk_query role location))).filterMap fun result =>
        normalize_cross result role location found_at
  let method2 := search_patterns.flatMap fun pattern =>
    (backendResults (backend pattern)).filterMap fun result =>
      normalize_pattern result pattern target_roles found_at
  method1 ++ method2

/-! ## Deduplication -/

/-- Loop of `remove_duplicates` (scraper.py lines 211–218), with the `seen`
set made explicit (a list used only through membership). -/
def removeDupAux (seen : List String) : List JobRecord → List JobRecord
  | [] => []
  | job :: rest =>
    if job.link ∈ seen then
      removeDupAux seen rest
    else
      job :: removeDupAux (job.link :: seen) rest

/-- Function `remove_duplicates` (scraper.py lines 207–220). -/
def remove_duplicates (job_links : List JobRecord) : List JobRecord :=
  removeDupAux [] job_links

/-! ## The ledger file

`latest_links.csv` is modelled as either absent or a list of data rows (the
header row is implicit: `save_links_to_csv` writes it when creating the file
and `csv.DictReader` consumes it).  A parseable row is `some link` carrying
its `link` column; `none` is a row on which the CSV reader (or the
`row['link']` lookup) raises — this also models an unreadable or corrupt
store via a file whose first row is unparseable. -/

inductive LedgerFile where
  | absent
  | file (rows : List (Option String))
deriving DecidableEq

/-- Read loop of `load_existing_links` (scraper.py lines 229–232): the whole
loop sits inside one `try/except`, so the first row that raises aborts the
loop and the links accumulated so far are returned. -/
def readRows : List (Option String) → List String
  | [] => []
  | some link :: rest => link :: readRows rest
  | none :: _ => []

/-- Function `load_existing_links` (scraper.py lines 222–236).  Python accumulates
into a set; the model returns the accumulation list, used only through
membership. -/
def load_existing_links : LedgerFile → List String
  | .absent => []
  | .file rows => readRows rows

/-- All links physically present in the ledger's rows (row multiplicity
preserved), independently of whether a later read can see them. -/
def ledgerLinks : LedgerFile → List String
  | .absent => []
  | .file rows => rows.filterMap id

/-- Whether every row of the store parses (an absent store qualifies). -/
def fullyParseable : LedgerFile → Bool
  | .absent => true
  | .file rows => !rows.contains none

/-- The cross-run filter of `save_links_to_csv` (scraper.py lines 246–250):
the records whose link is not among the links loaded from the store. -/
def newLinks (job_links : List JobRecord) (f : LedgerFile) : List JobRecord :=
  job_links.filter fun job => decide (job.link ∉ load_existing_links f)

/-- Function `save_links_to_csv` (scraper.py lines 238–278): on a non-empty input,
load the existing links, drop records whose link is already among them, and
if any remain, append one row per remaining record (creating the file with a
header when absent).  A written row is well-formed CSV, so it is modelled as
parseable and carrying the record's link. -/
def save_links_to_csv (job_links : List JobRecord) (f : LedgerFile) : LedgerFile :=
  if job_links.isEmpty then f
  else if (newLinks job_links f).isEmpty then f
  else
    match f with
    | .absent => .file ((newLinks job_links f).map fun job => some job.link)
    | .file rows => .file (rows ++ (newLinks job_links f).map fun job => some job.link)

/-- The dedupe-then-save tail of `main` (scraper.py lines 330–336): the run's
candidates pass through `remove_duplicates` and then `save_links_to_csv`. -/
def run_pipeline (candidates : List JobRecord) (f : LedgerFile) : LedgerFile :=
  save_links_to_csv (remove_duplicates candidates) f

/-- The spec's `Deduplicator.dedupe`: Step 1 is `remove_duplicates`
(scraper.py lines 207–220), Step 2 is the cross-run filter inside
`save_links_to_csv` (scraper.py line 250). -/
def dedupe (candidates : List JobRecord) (existing : List String) : List JobRecord :=
  (remove_duplicates candidates).filter fun job => decide (job.link ∉ existing)

/-! ## Startup cleanup -/

/-- Model of Python `s.startswith(p)`. -/
def pyStartsWith (s pre : String) : Bool := pre.data.isPrefixOf s.data

/-- The filename test of `cleanup_old_data` (scraper.py line 289): the file
is removed iff its name starts with `links_<yesterday>` or `jobs_<yesterday>`. -/
def cleanup_targets (filename yesterday_str : String) : Bool :=
  pyStartsWith filename ("links_" ++ yesterday_str) ||
  pyStartsWith filename ("jobs_" ++ yesterday_str)

/-- The ledger filename, the default of `save_links_to_csv`. -/
def ledger_filename : String := "latest_links.csv"

/-! ## Observations on strings: lower-case and stripped -/

/-- A string with no ASCII upper-case letter (the normal form produced by
`str.lower()` on ASCII input). -/
def isLowerStr (s : String) : Bool :=
  s.data.all fun c => !(decide (65 ≤ c.toNat) && decide (c.toNat ≤ 90))

/-- A string with no leading and no trailing whitespace (the normal form
produced by `str.strip()`). -/
def isStrippedStr (s : String) : Bool :=
  (s.data.head?.all fun c => !isSpaceChar c) &&
  (s.data.getLast?.all fun c => !isSpaceChar c)

theorem toNat_ofNat_of_valid {n : Nat} (h : n.isValidChar) :
    (Char.ofNat n).toNat = n := by
  rw [Char.ofNat, dif_pos h]
  rfl

theorem toLower_not_upper (c : Char) :
    ¬(65 ≤ (Char.toLower c).toNat ∧ (Char.toLower c).toNat ≤ 90) := by
  simp only [Char.toLower]
  split
  · next h =>
    rw [toNat_ofNat_of_valid (Or.inl (by omega))]
    omega
  · next h => exact h

theorem mem_stripChars {c : Char} {l : List Char} (h : c ∈ stripChars l) : c ∈ l := by
  unfold stripChars lstripChars at h
  rw [List.mem_reverse] at h
  have h2 := (List.dropWhile_sublist _).subset h
  rw [List.mem_reverse] at h2
  exact (List.dropWhile_sublist _).subset h2

theorem head?_dropWhile_not {α : Type} {p : α → Bool} :
    ∀ (l : List α) (c : α), (l.dropWhile p).head? = some c → p c = false := by
  intro l
  induction l with
  | nil => intro c h; simp at h
  | cons a t ih =>
    intro c h
    rw [List.dropWhile_cons] at h
    split at h
    · exact ih c h
    · next hpa =>
      rw [List.head?_cons] at h
      cases h
      exact Bool.not_eq_true _ ▸ Bool.of_not_eq_true hpa

theorem stripChars_getLast?_not (l : List Char) {c : Char}
    (h : (stripChars l).getLast? = some c) : isSpaceChar c = false := by
  unfold stripChars at h
  rw [List.getLast?_reverse] at h
  exact head?_dropWhile_not _ c h

theorem stripChars_head?_not (l : List Char) {c : Char}
    (h : (stripChars l).head? = some c) : isSpaceChar c = false := by
  unfold stripChars at h
  rw [List.head?_reverse] at h
  obtain ⟨t, ht⟩ := List.dropWhile_suffix (l := (lstripChars l).reverse) isSpaceChar
  have hy : ((lstripChars l).reverse).getLast? = some c := by
    rw [← ht, List.getLast?_append, h]
    rfl
  rw [List.getLast?_reverse] at hy
  exact head?_dropWhile_not _ c hy

theorem isStrippedStr_pyStrip (s : String) : isStrippedStr (pyStrip s) = true := by
  show (((stripChars s.data).head?.all fun c => !isSpaceChar c) &&
    ((stripChars s.data).getLast?.all fun c => !isSpaceChar c)) = true
  rw [Bool.and_eq_true]
  constructor
  · cases hh : (stripChars s.data).head? with
    | none => rfl
    | some c => simp [Option.all, stripChars_head?_not s.data hh]
  · cases hh : (stripChars s.data).getLast? with
    | none => rfl
    | some c => simp [Option.all, stripChars_getLast?_not s.data hh]

theorem isLowerStr_strip_lower (s : String) : isLowerStr (pyStrip (pyLower s)) = true := by
  show (stripChars (pyLower s).data).all _ = true
  rw [List.all_eq_true]
  intro c hc
  have hc' : c ∈ (pyLower s).data := mem_stripChars hc
  have hc'' : c ∈ s.data.map Char.toLower := hc'
  rw [List.mem_map] at hc''
  obtain ⟨d, _, rfl⟩ := hc''
  have hnu := toLower_not_upper d
  simp only [Bool.not_eq_true', Bool.and_eq_false_iff, decide_eq_false_iff_not]
  omega

theorem findCompany_shape :
    ∀ (l : List String) (s : String), findCompany l = some s →
      ∃ x, s = pyStrip (pyLower x) := by
  intro l
  induction l with
  | nil => intro s h; simp [findCompany] at h
  | cons p rest ih =>
    cases rest with
    | nil => intro s h; simp [findCompany] at h
    | cons next rest' =>
      intro s h
      rw [findCompany] at h
      split at h
      · exact ⟨next, (Option.some.inj h).symm⟩
      · exact ih s h

theorem extract_shape (url : String) :
    ∀ s, extract_company_from_url url = some s → ∃ x, s = pyStrip (pyLower x) := by
  intro s h
  unfold extract_company_from_url at h
  split at h
  · exact findCompany_shape _ s h
  · cases h

theorem company_normalized (o : Option String)
    (ho : ∀ s, o = some s → ∃ x, s = pyStrip (pyLower x)) :
    isLowerStr (pyOrDefault o "unknown") = true ∧
    isStrippedStr (pyOrDefault o "unknown") = true ∧
    pyOrDefault o "unknown" ≠ "" := by
  cases o with
  | none => exact ⟨by decide, by decide, by decide⟩
  | some s =>
    show isLowerStr (if s = "" then "unknown" else s) = true ∧
      isStrippedStr (if s = "" then "unknown" else s) = true ∧
      (if s = "" then "unknown" else s) ≠ ""
    split
    · exact ⟨by decide, by decide, by decide⟩
    · next hne =>
      obtain ⟨x, rfl⟩ := ho s rfl
      exact ⟨isLowerStr_strip_lower x, isStrippedStr_pyStrip (pyLower x), hne⟩

/-! ## Shape of the records produced by normalization and discovery -/

theorem normalize_cross_some {result : RawResult} {role location found_at : String}
    {rec : JobRecord} (h : normalize_cross result role location found_at = some rec) :
    rec.found_at = found_at ∧
    rec.company = pyOrDefault (extract_company_from_url rec.link) "unknown" ∧
    pyContains rec.link "job-boards.greenhouse.io" = true ∧
    pyContains rec.link "/jobs/" = true := by
  unfold normalize_cross at h
  split at h
  · next hb =>
    rw [Bool.and_eq_true] at hb
    cases Option.some.inj h
    exact ⟨rfl, rfl, hb.1, hb.2⟩
  · cases h

theorem normalize_pattern_some {result : RawResult} {pattern found_at : String}
    {target_roles : List String} {rec : JobRecord}
    (h : normalize_pattern result pattern target_roles found_at = some rec) :
    rec.found_at = found_at ∧
    rec.company = pyOrDefault (extract_company_from_url rec.link) "unknown" ∧
    pyContains rec.link "job-boards.greenhouse.io" = true ∧
    pyContains rec.link "/jobs/" = true := by
  unfold normalize_pattern at h
  split at h
  · next hb =>
    rw [Bool.and_eq_true] at hb
    split at h
    · cases Option.some.inj h
      exact ⟨rfl, rfl, hb.1, hb.2⟩
    · cases h
  · cases h

theorem discover_mem {roles locs : List String} {backend : String → HttpOutcome}
    {found_at : String} {rec : JobRecord}
    (h : rec ∈ discover_greenhouse_job_links roles locs backend found_at) :
    rec.found_at = found_at ∧
    rec.company = pyOrDefault (extract_company_from_url rec.link) "unknown" ∧
    pyContains rec.link "job-boards.greenhouse.io" = true ∧
    pyContains rec.link "/jobs/" = true := by
  unfold discover_greenhouse_job_links at h
  simp only [List.mem_append, List.mem_flatMap, List.mem_filterMap] at h
  rcases h with ⟨role, _, location, _, result, _, hn⟩ | ⟨pattern, _, result, _, hn⟩
  · exact normalize_cross_some hn
  · exact normalize_pattern_some hn

/-! ## The host-marker-last lemma for the extractor -/

theorem findCompany_none :
    ∀ l : List String, (∀ p ∈ l.dropLast, pyContains p "greenhouse.io" = false) →
      findCompany l = none := by
  intro l
  induction l with
  | nil => intro _; rfl
  | cons p rest ih =>
    cases rest with
    | nil => intro _; rfl
    | cons next rest' =>
      intro hall
      have hp : pyContains p "greenhouse.io" = false := by
        apply hall p
        simp [List.dropLast]
      rw [findCompany, if_neg]
      · exact ih fun q hq => hall q (by simp only [List.dropLast]; exact List.mem_cons_of_mem _ hq)
      · intro hc
        rw [hp] at hc
        exact Bool.false_ne_true hc.1

/-! ## Ledger read/write lemmas -/

theorem readRows_eq_takeWhile :
    ∀ rows : List (Option String),
      readRows rows = (rows.takeWhile fun r => r.isSome).filterMap id := by
  intro rows
  induction rows with
  | nil => rfl
  | cons r rest ih =>
    cases r with
    | some l =>
      rw [readRows, List.takeWhile_cons_of_pos (by rfl), List.filterMap_cons]
      simpa using ih
    | none =>
      rw [readRows, List.takeWhile_cons_of_neg (by simp)]
      rfl

theorem readRows_of_parseable :
    ∀ rows : List (Option String), none ∉ rows → readRows rows = rows.filterMap id := by
  intro rows
  induction rows with
  | nil => intro _; rfl
  | cons r rest ih =>
    intro h
    cases r with
    | some l =>
      rw [readRows, List.filterMap_cons]
      simpa using ih fun hm => h (List.mem_cons_of_mem _ hm)
    | none => exact absurd (List.mem_cons_self _ _) h

theorem readRows_append_parseable :
    ∀ (rows l : List (Option String)), none ∉ rows →
      readRows (rows ++ l) = rows.filterMap id ++ readRows l := by
  intro rows l
  induction rows with
  | nil => intro _; rfl
  | cons r rest ih =>
    intro h
    cases r with
    | some s =>
      rw [List.cons_append, readRows, List.filterMap_cons]
      simpa using ih fun hm => h (List.mem_cons_of_mem _ hm)
    | none => exact absurd (List.mem_cons_self _ _) h

theorem readRows_map_some :
    ∀ xs : List String, readRows (xs.map fun l => some l) = xs := by
  intro xs
  induction xs with
  | nil => rfl
  | cons x t ih => rw [List.map_cons, readRows, ih]

/-! ## Deduplication lemmas -/

theorem removeDupAux_nodup :
    ∀ (xs : List JobRecord) (seen : List String),
      ((removeDupAux seen xs).map JobRecord.link).Nodup ∧
      ∀ j ∈ removeDupAux seen xs, j.link ∉ seen := by
  intro xs
  induction xs with
  | nil => intro seen; exact ⟨List.nodup_nil, fun j h => absurd h (List.not_mem_nil j)⟩
  | cons x rest ih =>
    intro seen
    rw [removeDupAux]
    by_cases hx : x.link ∈ seen
    · rw [if_pos hx]; exact ih seen
    · rw [if_neg hx]
      obtain ⟨ihn, ihs⟩ := ih (x.link :: seen)
      refine ⟨?_, ?_⟩
      · rw [List.map_cons, List.nodup_cons]
        refine ⟨?_, ihn⟩
        intro hmem
        rw [List.mem_map] at hmem
        obtain ⟨j, hj, hje⟩ := hmem
        exact ihs j hj (hje ▸ List.mem_cons_self _ _)
      · intro j hj
        rcases List.mem_cons.mp hj with rfl | hj'
        · exact hx
        · exact fun hm => ihs j hj' (List.mem_cons_of_mem _ hm)

theorem removeDupAux_eq_self :
    ∀ (xs : List JobRecord) (seen : List String),
      (xs.map JobRecord.link).Nodup → (∀ j ∈ xs, j.link ∉ seen) →
      removeDupAux seen xs = xs := by
  intro xs
  induction xs with
  | nil => intro _ _ _; rfl
  | cons x rest ih =>
    intro seen hnd hseen
    rw [List.map_cons, List.nodup_cons] at hnd
    rw [removeDupAux, if_neg (hseen x (List.mem_cons_self _ _))]
    congr 1
    apply ih _ hnd.2
    intro j hj hm
    rcases List.mem_cons.mp hm with he | hm'
    · exact hnd.1 (he ▸ List.mem_map_of_mem JobRecord.link hj)
    · exact hseen j (List.mem_cons_of_mem _ hj) hm'

/-- Spec-side definition of Step 1 of the Deduplicator (spec §4.6: "collapse
`candidates` to first-occurrence-per-`link`, preserving first-seen order"):
keep the head, then recur on the tail purged of the head's link. -/
def firstOccurrenceSpec : List JobRecord → List JobRecord
  | [] => []
  | x :: xs => x :: firstOccurrenceSpec (xs.filter fun y => decide (y.link ≠ x.link))
termination_by l => l.length
decreasing_by
  simp only [List.length_cons]
  exact Nat.lt_succ_of_le (List.length_filter_le _ _)

theorem removeDupAux_eq_spec :
    ∀ (xs : List JobRecord) (seen : List String),
      removeDupAux seen xs =
        firstOccurrenceSpec (xs.filter fun j => decide (j.link ∉ seen)) := by
  intro xs
  induction xs with
  | nil =>
    intro seen
    rw [removeDupAux, List.filter_nil, firstOccurrenceSpec]
  | cons x rest ih =>
    intro seen
    by_cases hx : x.link ∈ seen
    · rw [removeDupAux, if_pos hx, List.filter_cons, if_neg (by simp [hx])]
      exact ih seen
    · rw [removeDupAux, if_neg hx, List.filter_cons, if_pos (by simp [hx]),
        firstOccurrenceSpec]
      congr 1
      rw [ih (x.link :: seen), List.filter_filter]
      congr 1
      apply List.filter_congr
      intro j _
      rcases Decidable.em (j.link = x.link) with he | he <;>
        rcases Decidable.em (j.link ∈ seen) with hm | hm <;>
          simp [he, hm]

theorem remove_duplicates_eq_spec (xs : List JobRecord) :
    remove_duplicates xs = firstOccurrenceSpec xs := by
  unfold remove_duplicates
  rw [removeDupAux_eq_spec]
  congr 1
  apply List.filter_eq_self.mpr
  intro j _
  simp

/-! ## Save-path lemmas -/

theorem newLinks_nodup {js : List JobRecord} (hjs : (js.map JobRecord.link).Nodup)
    (f : LedgerFile) : ((newLinks js f).map JobRecord.link).Nodup :=
  List.Nodup.sublist (List.Sublist.map _ (List.filter_sublist js)) hjs

theorem newLinks_not_existing {js : List JobRecord} {f : LedgerFile} {j : JobRecord}
    (h : j ∈ newLinks js f) : j.link ∉ load_existing_links f := by
  unfold newLinks at h
  have := (List.mem_filter.mp h).2
  simpa using this

theorem save_monotone (js : List JobRecord) (f : LedgerFile) :
    ∀ l ∈ ledgerLinks f, l ∈ ledgerLinks (save_links_to_csv js f) := by
  intro l hl
  unfold save_links_to_csv
  split
  · exact hl
  split
  · exact hl
  cases f with
  | absent => exact absurd hl (List.not_mem_nil l)
  | file rows =>
    show l ∈ (rows ++ (newLinks js (.file rows)).map fun job => some job.link).filterMap id
    rw [List.filterMap_append]
    exact List.mem_append_left _ hl

theorem ledgerLinks_of_parseable {f : LedgerFile} (hp : fullyParseable f = true) :
    load_existing_links f = ledgerLinks f := by
  cases f with
  | absent => rfl
  | file rows =>
    show readRows rows = rows.filterMap id
    apply readRows_of_parseable
    have : rows.contains none = false := by
      have hp' : (!rows.contains none) = true := hp
      rwa [Bool.not_eq_true'] at hp'
    simpa using this

theorem save_nodup {js : List JobRecord} (hjs : (js.map JobRecord.link).Nodup)
    (f : LedgerFile) (hp : fullyParseable f = true) (hn : (ledgerLinks f).Nodup) :
    (ledgerLinks (save_links_to_csv js f)).Nodup := by
  unfold save_links_to_csv
  split
  · exact hn
  split
  · exact hn
  cases f with
  | absent =>
    show (((newLinks js .absent).map fun job => some job.link).filterMap id).Nodup
    rw [List.filterMap_map]
    rw [show ((id ∘ fun job : JobRecord => some job.link) = (some ∘ JobRecord.link)) from rfl]
    rw [List.filterMap_eq_map]
    exact newLinks_nodup hjs _
  | file rows =>
    show ((rows ++ (newLinks js (.file rows)).map fun job => some job.link).filterMap id).Nodup
    rw [List.filterMap_append, List.filterMap_map]
    rw [show ((id ∘ fun job : JobRecord => some job.link) = (some ∘ JobRecord.link)) from rfl]
    rw [List.filterMap_eq_map]
    apply List.Nodup.append hn (newLinks_nodup hjs _)
    intro a ha hb
    rw [List.mem_map] at hb
    obtain ⟨j, hj, rfl⟩ := hb
    apply newLinks_not_existing hj
    rw [ledgerLinks_of_parseable hp]
    exact ha

/-! ## Startup-cleanup lemma -/

theorem cleanup_never_removes_ledger :
    ∀ yesterday_str : String, cleanup_targets ledger_filename yesterday_str = false := by
  intro y
  unfold cleanup_targets pyStartsWith ledger_filename
  rw [Bool.or_eq_false_iff]
  constructor
  · by_contra hb
    rw [Bool.not_eq_false, List.isPrefixOf_iff_prefix, String.data_append] at hb
    exact absurd (List.IsPrefix.trans (List.prefix_append "links_".data y.data) hb)
      (by decide)
  · by_contra hb
    rw [Bool.not_eq_false, List.isPrefixOf_iff_prefix, String.data_append] at hb
    exact absurd (List.IsPrefix.trans (List.prefix_append "jobs_".data y.data) hb)
      (by decide)

/-! ## Claim theorems -/

/-- C3: the search backend operation never raises to its caller: on a network
failure (the request raises), a rate-limit or any other non-200 response, or
a 200 response whose body cannot be parsed, it yields the empty raw-result
sequence, so the discovery loop continues with the remaining queries.
(Totality of `search_with_serpapi`/`backendResults` models "never raises".) -/
theorem backendResults_eq_nil {o : HttpOutcome} (h : search_with_serpapi o = none) :
    backendResults o = [] := by
  unfold backendResults
  rw [h]

theorem c3_backend_absorbs_failures :
    backendResults .failure = [] ∧
    ∀ (status : Nat) (body : Option SerpPayload),
      status ≠ 200 ∨ body = none → backendResults (.response status body) = [] := by
  refine ⟨rfl, ?_⟩
  intro status body h
  apply backendResults_eq_nil
  show (if status = 200 then body else none) = none
  rcases h with h | h
  · rw [if_neg h]
  · subst h
    split <;> rfl

theorem c3_witness :
    backendResults (.response 429 (some ⟨some [⟨some "x", none, none⟩]⟩)) = [] ∧
    backendResults (.response 200 none) = [] :=
  ⟨c3_backend_absorbs_failures.2 429 _ (Or.inl (by decide)),
   c3_backend_absorbs_failures.2 200 none (Or.inr rfl)⟩

/-- C4 (amended): ledger load never fails — a missing (or unreadable,
modelled as first-row-unparseable) store yields the empty link set, and a
store with unparseable rows yields the links of exactly the parseable rows
BEFORE the first unparseable one: reading stops at the first bad row, so
parseable rows after it are dropped rather than ignored-and-passed-over. -/
theorem c4_load_stops_at_first_bad_row :
    load_existing_links .absent = [] ∧
    ∀ rows : List (Option String),
      load_existing_links (.file rows) =
        (rows.takeWhile fun r => r.isSome).filterMap id :=
  ⟨rfl, readRows_eq_takeWhile⟩

/-- C4 counterexample: with rows `[link "a", unparseable, link "b"]` the load
returns only `["a"]`: the parseable row carrying `"b"` sits after the bad
row and is lost, contradicting "still returning the links of every
parseable row". -/
theorem c4_counterexample :
    load_existing_links (.file [some "a", none, some "b"]) = ["a"] ∧
    some "b" ∈ [some "a", none, some "b"] ∧
    "b" ∉ load_existing_links (.file [some "a", none, some "b"]) := by
  decide

/-- C5: deduplication is idempotent — re-applying `dedupe` with the same
existing-link set to its own output returns that output unchanged. -/
theorem c5_dedupe_idempotent (xs : List JobRecord) (S : List String) :
    dedupe (dedupe xs S) S = dedupe xs S := by
  have hsub : List.Sublist (dedupe xs S) (remove_duplicates xs) := List.filter_sublist _
  have hnd : ((dedupe xs S).map JobRecord.link).Nodup :=
    List.Nodup.sublist (List.Sublist.map _ hsub) (removeDupAux_nodup xs []).1
  have h1 : remove_duplicates (dedupe xs S) = dedupe xs S :=
    removeDupAux_eq_self _ [] hnd fun j _ => List.not_mem_nil j.link
  have h2 : dedupe (dedupe xs S) S =
      (remove_duplicates (dedupe xs S)).filter fun job => decide (job.link ∉ S) := rfl
  rw [h2, h1]
  apply List.filter_eq_self.mpr
  intro j hj
  have hj' : j ∈ (remove_duplicates xs).filter fun job => decide (job.link ∉ S) := hj
  exact (List.mem_filter.mp hj').2

/-- C8: deduplication computes exactly the spec's two steps — the
first-occurrence-per-link sublist of the candidates in first-seen order
(`firstOccurrenceSpec`, written from the spec's words), then removal of every
record whose link is in the existing-link set; being a pure function of the
ordered input, the output is deterministic. -/
theorem c8_dedupe_exact (xs : List JobRecord) (S : List String) :
    dedupe xs S = (firstOccurrenceSpec xs).filter fun job => decide (job.link ∉ S) := by
  unfold dedupe
  rw [remove_duplicates_eq_spec]

/-- C9: the company extractor is total (modelled as a total function into an
optional slug — the Python `try/except` can never fire) and yields `none`
for every URL in which no path segment before the last contains the
host-domain token, in particular whenever the segment containing the
host-domain token is the last segment. -/
theorem c9_extract_none_when_marker_last (url : String)
    (h : ∀ p ∈ (pySplit url '/').dropLast, pyContains p "greenhouse.io" = false) :
    extract_company_from_url url = none := by
  unfold extract_company_from_url
  split
  · exact findCompany_none _ h
  · rfl

theorem c9_witness :
    (∀ p ∈ (pySplit "http://job-boards.greenhouse.io" '/').dropLast,
      pyContains p "greenhouse.io" = false) ∧
    extract_company_from_url "http://job-boards.greenhouse.io" = none :=
  ⟨by decide, c9_extract_none_when_marker_last _ (by decide)⟩

/-- C7: a raw result whose link lacks the host marker
(`job-boards.greenhouse.io`) or the posting-path marker (`/jobs/`) is
rejected by both normalization paths (cross-product and pattern), producing
no JobRecord; consequently every record in the candidate set of a discovery
run carries both markers in its link. -/
theorem c7_marker_filter :
    (∀ (result : RawResult) (role location pattern found_at : String)
        (target_roles : List String),
      ¬(pyContains (rawLink result) "job-boards.greenhouse.io" = true ∧
        pyContains (rawLink result) "/jobs/" = true) →
      normalize_cross result role location found_at = none ∧
      normalize_pattern result pattern target_roles found_at = none) ∧
    (∀ (roles locs : List String) (backend : String → HttpOutcome)
        (found_at : String) (rec : JobRecord),
      rec ∈ discover_greenhouse_job_links roles locs backend found_at →
      pyContains rec.link "job-boards.greenhouse.io" = true ∧
      pyContains rec.link "/jobs/" = true) := by
  constructor
  · intro result role location pattern found_at target_roles h
    have hb : (pyContains (rawLink result) "job-boards.greenhouse.io" &&
        pyContains (rawLink result) "/jobs/") ≠ true := by
      exact fun hc => h (by rwa [Bool.and_eq_true] at hc)
    constructor
    · unfold normalize_cross
      rw [if_neg hb]
    · unfold normalize_pattern
      rw [if_neg hb]
  · intro roles locs backend found_at rec h
    exact ⟨(discover_mem h).2.2.1, (discover_mem h).2.2.2⟩

theorem c7_witness :
    (normalize_cross ⟨some "https://example.com/careers/123", none, none⟩
        "data scientist" "Boston" "t" = none ∧
     normalize_pattern ⟨some "https://example.com/careers/123", none, none⟩
        "site:job-boards.greenhouse.io \"data scientist\" \"remote\" OR \"US\""
        ["data scientist"] "t" = none) ∧
    (pyContains "https://job-boards.greenhouse.io/acme/jobs/123"
        "job-boards.greenhouse.io" = true ∧
     pyContains "https://job-boards.greenhouse.io/acme/jobs/123" "/jobs/" = true) :=
  ⟨c7_marker_filter.1 _ _ _ _ _ _ (by decide),
   c7_marker_filter.2 ["data analyst"] ["Boston"]
     (fun _ => .response 200
       (some ⟨some [⟨some "https://job-boards.greenhouse.io/acme/jobs/123", none, none⟩]⟩))
     "t"
     ⟨"https://job-boards.greenhouse.io/acme/jobs/123", "acme", "data analyst", "Boston",
       "t", "No title", "No description"⟩
     (by decide)⟩

/-- C10: every JobRecord produced within a single discovery run carries the
same `found_at` value — the one formatted wall-clock string captured at the
start of the run (scraper.py line 46) — whether the record came from a
cross-product query or from a pattern query. -/
theorem c10_found_at_uniform (roles locs : List String)
    (backend : String → HttpOutcome) (found_at : String) (rec : JobRecord)
    (h : rec ∈ discover_greenhouse_job_links roles locs backend found_at) :
    rec.found_at = found_at :=
  (discover_mem h).1

theorem c10_witness :
    (⟨"https://job-boards.greenhouse.io/acme/jobs/123", "acme",
      "machine learning engineer", "US/Remote", "2025-06-01 07:00:00",
      "No title", "No description"⟩ : JobRecord) ∈
      discover_greenhouse_job_links ["machine learning engineer"] []
        (fun q =>
          if q = "site:job-boards.greenhouse.io \"machine learning engineer\" \"remote\" OR \"US\""
          then .response 200
            (some ⟨some [⟨some "https://job-boards.greenhouse.io/acme/jobs/123", none, none⟩]⟩)
          else .failure)
        "2025-06-01 07:00:00" ∧
    (⟨"https://job-boards.greenhouse.io/acme/jobs/123", "acme",
      "machine learning engineer", "US/Remote", "2025-06-01 07:00:00",
      "No title", "No description"⟩ : JobRecord).found_at = "2025-06-01 07:00:00" :=
  ⟨by decide,
   c10_found_at_uniform ["machine learning engineer"] []
     (fun q =>
       if q = "site:job-boards.greenhouse.io \"machine learning engineer\" \"remote\" OR \"US\""
       then .response 200
         (some ⟨some [⟨some "https://job-boards.greenhouse.io/acme/jobs/123", none, none⟩]⟩)
       else .failure)
     "2025-06-01 07:00:00"
     ⟨"https://job-boards.greenhouse.io/acme/jobs/123", "acme",
       "machine learning engineer", "US/Remote", "2025-06-01 07:00:00",
       "No title", "No description"⟩
     (by decide)⟩

/-- C1 counterexample: the structural-token check runs on the raw slug before
`.lower().strip()`, so the slug `JOBS` — differing from the structural token
`jobs` only in letter case — passes the check and normalizes to the
structural token `jobs`, which then enters the candidate set as a company. -/
theorem c1_counterexample :
    extract_company_from_url "https://job-boards.greenhouse.io/JOBS/jobs/123" = some "jobs" ∧
    "jobs" ∈ structural_tokens ∧
    normalize_cross ⟨some "https://job-boards.greenhouse.io/JOBS/jobs/123", none, none⟩
        "data scientist" "Boston" "2025-06-01 07:00:00" =
      some ⟨"https://job-boards.greenhouse.io/JOBS/jobs/123", "jobs", "data scientist",
        "Boston", "2025-06-01 07:00:00", "No title", "No description"⟩ := by
  decide

/-- C1 (amended): the company of every JobRecord entering the candidate set
is lower-case, stripped of whitespace, and non-empty; but because the
structural-token check precedes `.lower().strip()`, the company can equal a
non-empty structural token ("jobs", "www", "job-boards") when the URL's slug
differs from that token only in letter case or surrounding whitespace. -/
theorem c1_company_lower_stripped_nonempty (roles locs : List String)
    (backend : String → HttpOutcome) (found_at : String) (rec : JobRecord)
    (h : rec ∈ discover_greenhouse_job_links roles locs backend found_at) :
    isLowerStr rec.company = true ∧ isStrippedStr rec.company = true ∧
    rec.company ≠ "" := by
  have hm := discover_mem h
  rw [hm.2.1]
  exact company_normalized _ (extract_shape rec.link)

theorem c1_witness :
    (⟨"https://job-boards.greenhouse.io/stripe-inc/jobs/77", "stripe-inc", "ai engineer",
      "Atlanta", "2025-06-02 07:00:00", "No title", "No description"⟩ : JobRecord) ∈
      discover_greenhouse_job_links ["ai engineer"] ["Atlanta"]
        (fun q =>
          if q = mk_query "ai engineer" "Atlanta"
          then .response 200
            (some ⟨some [⟨some "https://job-boards.greenhouse.io/stripe-inc/jobs/77", none, none⟩]⟩)
          else .failure)
        "2025-06-02 07:00:00" ∧
    (isLowerStr "stripe-inc" = true ∧ isStrippedStr "stripe-inc" = true ∧
      ("stripe-inc" : String) ≠ "") :=
  ⟨by decide,
   c1_company_lower_stripped_nonempty ["ai engineer"] ["Atlanta"]
     (fun q =>
       if q = mk_query "ai engineer" "Atlanta"
       then .response 200
         (some ⟨some [⟨some "https://job-boards.greenhouse.io/stripe-inc/jobs/77", none, none⟩]⟩)
       else .failure)
     "2025-06-02 07:00:00"
     ⟨"https://job-boards.greenhouse.io/stripe-inc/jobs/77", "stripe-inc", "ai engineer",
       "Atlanta", "2025-06-02 07:00:00", "No title", "No description"⟩
     (by decide)⟩

/-- C2 (amended): links in the ledger are never removed by the pipeline — the
save path only appends rows and the startup cleanup never matches the ledger
filename — and when every row of the ledger parses, a run never writes a
second row with a link already present, keeping the ledger duplicate-free;
when the ledger read fails (modelled by an unparseable row), already-present
links can be re-appended (the spec's accepted trade-off), see the
counterexample. -/
theorem c2_ledger_monotone_nodup (candidates : List JobRecord) (f : LedgerFile) :
    (∀ l ∈ ledgerLinks f, l ∈ ledgerLinks (run_pipeline candidates f)) ∧
    (fullyParseable f = true → (ledgerLinks f).Nodup →
      (ledgerLinks (run_pipeline candidates f)).Nodup) ∧
    (∀ yesterday_str : String,
      cleanup_targets ledger_filename yesterday_str = false) := by
  refine ⟨save_monotone _ f, ?_, cleanup_never_removes_ledger⟩
  intro hp hn
  exact save_nodup (removeDupAux_nodup candidates []).1 f hp hn

/-- C2 counterexample: with the ledger `[unparseable, link "L"]`, a run whose
sole candidate has link `"L"` appends a second `"L"` row — the load behind the
cross-run filter stops at the unparseable row and misses the existing `"L"` —
so a link already present in the ledger is written again and the ledger's
link multiset gains a duplicate. -/
theorem c2_counterexample :
    "L" ∈ ledgerLinks (.file [none, some "L"]) ∧
    ledgerLinks (run_pipeline
      [⟨"L", "acme", "data analyst", "Boston", "t", "No title", "No description"⟩]
      (.file [none, some "L"])) = ["L", "L"] ∧
    ¬ (ledgerLinks (run_pipeline
      [⟨"L", "acme", "data analyst", "Boston", "t", "No title", "No description"⟩]
      (.file [none, some "L"]))).Nodup := by
  decide

theorem c2_witness :
    "a" ∈ ledgerLinks (run_pipeline
      [⟨"b", "acme", "data analyst", "Boston", "t", "No title", "No description"⟩]
      (.file [some "a"])) ∧
    (ledgerLinks (run_pipeline
      [⟨"b", "acme", "data analyst", "Boston", "t", "No title", "No description"⟩]
      (.file [some "a"]))).Nodup ∧
    cleanup_targets ledger_filename "20250601" = false :=
  ⟨(c2_ledger_monotone_nodup
      [⟨"b", "acme", "data analyst", "Boston", "t", "No title", "No description"⟩]
      (.file [some "a"])).1 "a" (by decide),
   (c2_ledger_monotone_nodup
      [⟨"b", "acme", "data analyst", "Boston", "t", "No title", "No description"⟩]
      (.file [some "a"])).2.1 (by decide) (by decide),
   (c2_ledger_monotone_nodup [] .absent).2.2 "20250601"⟩

/-- C6 (amended): over any prior ledger state all of whose rows parse (an
absent store included), the link of every record given to the append is a
member of a subsequent load's result: records filtered out as already
present are found among the re-read prior rows, the rest among the newly
written rows.  (Over a state with an unparseable row the round-trip fails:
see the counterexample.) -/
theorem c6_append_load_roundtrip (f : LedgerFile) (jobs : List JobRecord)
    (hp : fullyParseable f = true) :
    ∀ j ∈ jobs, j.link ∈ load_existing_links (save_links_to_csv jobs f) := by
  intro j hj
  unfold save_links_to_csv
  split
  · next he =>
    rw [List.isEmpty_iff] at he
    subst he
    cases hj
  split
  · next he =>
    rw [List.isEmpty_iff] at he
    unfold newLinks at he
    rw [List.filter_eq_nil_iff] at he
    have h2 := he j hj
    simp only [decide_eq_true_eq, not_not] at h2
    exact h2
  by_cases hmem : j.link ∈ load_existing_links f
  · cases f with
    | absent => exact absurd hmem (List.not_mem_nil _)
    | file rows =>
      have hnp : (none : Option String) ∉ rows := by
        have h3 : (!rows.contains none) = true := hp
        rw [Bool.not_eq_true'] at h3
        simpa using h3
      show j.link ∈ readRows
        (rows ++ (newLinks jobs (.file rows)).map fun job => some job.link)
      rw [readRows_append_parseable _ _ hnp]
      apply List.mem_append_left
      rw [← readRows_of_parseable rows hnp]
      exact hmem
  · have hjn : j ∈ newLinks jobs f := by
      unfold newLinks
      rw [List.mem_filter]
      exact ⟨hj, by simpa using hmem⟩
    cases f with
    | absent =>
      show j.link ∈ readRows ((newLinks jobs .absent).map fun job => some job.link)
      rw [show ((newLinks jobs .absent).map fun job => some job.link) =
          ((newLinks jobs .absent).map JobRecord.link).map (fun l => some l) from by
        rw [List.map_map]; rfl]
      rw [readRows_map_some]
      exact List.mem_map_of_mem JobRecord.link hjn
    | file rows =>
      have hnp : (none : Option String) ∉ rows := by
        have h3 : (!rows.contains none) = true := hp
        rw [Bool.not_eq_true'] at h3
        simpa using h3
      show j.link ∈ readRows
        (rows ++ (newLinks jobs (.file rows)).map fun job => some job.link)
      rw [readRows_append_parseable _ _ hnp]
      apply List.mem_append_right
      rw [show ((newLinks jobs (.file rows)).map fun job => some job.link) =
          ((newLinks jobs (.file rows)).map JobRecord.link).map (fun l => some l) from by
        rw [List.map_map]; rfl]
      rw [readRows_map_some]
      exact List.mem_map_of_mem JobRecord.link hjn

/-- C6 counterexample: the prior store holds one unparseable row; appending a
record physically writes its row (the link is in the ledger), yet the
subsequent load returns the empty set because reading aborts at the bad
first row — the appended link is not a member of the load's result. -/
theorem c6_counterexample :
    ledgerLinks (save_links_to_csv
      [⟨"https://job-boards.greenhouse.io/acme/jobs/1", "acme", "data analyst", "Boston",
        "t", "No title", "No description"⟩] (.file [none])) =
      ["https://job-boards.greenhouse.io/acme/jobs/1"] ∧
    load_existing_links (save_links_to_csv
      [⟨"https://job-boards.greenhouse.io/acme/jobs/1", "acme", "data analyst", "Boston",
        "t", "No title", "No description"⟩] (.file [none])) = [] := by
  decide

theorem c6_witness :
    "L" ∈ load_existing_links (save_links_to_csv
      [⟨"L", "acme", "data analyst", "Boston", "t", "No title", "No description"⟩]
      (.file [some "x"])) :=
  c6_append_load_roundtrip (.file [some "x"])
    [⟨"L", "acme", "data analyst", "Boston", "t", "No title", "No description"⟩]
    (by decide)
    ⟨"L", "acme", "data analyst", "Boston", "t", "No title", "No description"⟩
    (by decide)

end Scraper
